import Mathlib

/-!
# Verification of the numerical phonon core of udkm1Dsim

Shallow embedding of `src/udkm1Dsim/phononNum.py` (class `PhononNum`) over
lists of rationals.  NumPy float arrays are modelled as `List ℚ`
(resp. `List (List ℚ)` for two-dimensional arrays, in row-major order:
the outer list enumerates the rows of the `numpy` array).
-/

namespace PhononNum

/-- `np.diff(x)`: first difference, `(np.diff x)[i] = x[i+1] - x[i]`,
length one less than `x`. -/
def npdiff (x : List ℚ) : List ℚ :=
  List.zipWith (fun a b => a - b) x.tail x

/-- Row–times–powers dot product used inside `calc_force_from_spring`:
`np.sum(row * temp, 1)` for one layer, where `temp[:, j] = d**(j+1)`.
So `dotPow ks d = Σ_j ks[j] * d^(j+1)` with `j = 0 .. len ks - 1`. -/
def dotPow (ks : List ℚ) (d : ℚ) : ℚ :=
  ∑ j ∈ Finset.range ks.length, ks.getD j 0 * d ^ (j + 1)

/-- `PhononNum.calc_force_from_spring(d_X1, d_X2, spring_consts)`
(phononNum.py lines 272-310).

```python
spring_order = np.size(spring_consts, 1)        # column count
spring_consts = np.reshape(spring_consts, [np.size(spring_consts, 0), spring_order])
coeff1 = np.vstack((-spring_consts[0:-1, :], np.zeros([1, spring_order])))
coeff2 = np.vstack((np.zeros([1, spring_order]), -spring_consts[0:-1, :]))
temp1[:, j] = d_X1**(j+1); temp2[:, j] = d_X2**(j+1)
F = np.sum(coeff2*temp2, 1) - np.sum(coeff1*temp1, 1)
```

`spring_consts` is the matrix of spring constants, one row per layer
(the 1-D input case of the Python code corresponds to a single-column
matrix here). -/
def calc_force_from_spring (d_X1 d_X2 : List ℚ) (spring_consts : List (List ℚ)) :
    List ℚ :=
  let spring_order := (spring_consts.headD []).length
  let zeroRow : List ℚ := List.replicate spring_order 0
  let coeff1 := spring_consts.dropLast.map (List.map Neg.neg) ++ [zeroRow]
  let coeff2 := zeroRow :: spring_consts.dropLast.map (List.map Neg.neg)
  (List.range d_X1.length).map fun i =>
    dotPow (coeff2.getD i zeroRow) (d_X2.getD i 0)
      - dotPow (coeff1.getD i zeroRow) (d_X1.getD i 0)

/-- `PhononNum.calc_force_from_heat(sticks, spring_consts)`
(phononNum.py lines 312-330).

```python
M, L = np.shape(sticks)          # M = time samples, L = layers
F = np.zeros([L, M])
for i in range(M):
    F[:, i] = -PhononNum.calc_force_from_spring(
        np.hstack((sticks[i, 0:L-1], 0)),
        np.hstack((0, sticks[i, 0:L-1])),
        spring_consts)
```

The returned matrix is in row-major order, so it has `L` rows of length
`M`; column `i` is the (negated) spring force for time sample `i`. -/
def calc_force_from_heat (sticks spring_consts : List (List ℚ)) :
    List (List ℚ) :=
  let M := sticks.length
  let L := (sticks.headD []).length
  let col : ℕ → List ℚ := fun i =>
    (calc_force_from_spring
      ((sticks.getD i []).take (L - 1) ++ [0])
      (0 :: (sticks.getD i []).take (L - 1))
      spring_consts).map Neg.neg
  (List.range L).map fun l => (List.range M).map fun i => (col i).getD l 0

/-- `PhononNum.calc_force_from_damping(v, damping, masses)`
(phononNum.py lines 332-347).

```python
F = masses*damping*np.diff(v, 0)
```

`np.diff(v, 0)` applies the difference operator zero times, i.e. it
returns `v` unchanged, so the code computes `masses * damping * v`
elementwise. -/
def calc_force_from_damping (v damping masses : List ℚ) : List ℚ :=
  List.zipWith (fun a b => a * b)
    (List.zipWith (fun a b => a * b) masses damping) v

/-- Modelled from the spec: `finderb` (drive-signal sampler) lives in
`udkm1Dsim/helpers.py`, which is absent from `src/`.  Spec §4.2:
"binary search returning the index of the rightmost sample time ≤ t",
clamped to index `0` for `t` before the first sample and to the last
index for `t` after the last sample.  For a sorted `delays` vector the
returned index is `(count of entries ≤ t) - 1`, clamped below at `0`
(natural subtraction). -/
def finderb (t : ℚ) (delays : List ℚ) : ℕ :=
  (delays.countP fun d => decide (d ≤ t)) - 1

/-- Column extraction `A[:, j]` of a row-major matrix. -/
def matCol (A : List (List ℚ)) (j : ℕ) : List ℚ :=
  A.map fun row => row.getD j 0

/-- Transpose `A.T` of a row-major matrix (rectangular inputs). -/
def matTranspose (A : List (List ℚ)) : List (List ℚ) :=
  (List.range (A.headD []).length).map fun j => A.map fun row => row.getD j 0

/-- `PhononNum.ode_func(t, X, delays, force_from_heat, damping, spring_consts,
masses, L, ...)` (phononNum.py lines 222-270), without the progress-bar
bookkeeping (purely observational, it does not touch the returned vector).

```python
x = X[0:L]
v = X[L:]
X_prime = np.zeros([2*L])
X_prime[L:] = (
    PhononNum.calc_force_from_damping(v, damping, masses)
    + PhononNum.calc_force_from_spring(
        np.r_[np.diff(x), 0],
        np.r_[0, np.diff(x)],
        spring_consts)
    + force_from_heat[:, finderb(t, delays)].squeeze()
    )/masses
X_prime[0:L] = v
```
-/
def ode_func (t : ℚ) (X delays : List ℚ) (force_from_heat : List (List ℚ))
    (damping : List ℚ) (spring_consts : List (List ℚ)) (masses : List ℚ)
    (L : ℕ) : List ℚ :=
  let x := X.take L
  let v := X.drop L
  let accel := List.zipWith (fun a b => a / b)
    (List.zipWith (fun a b => a + b)
      (List.zipWith (fun a b => a + b)
        (calc_force_from_damping v damping masses)
        (calc_force_from_spring (npdiff x ++ [0]) (0 :: npdiff x) spring_consts))
      (matCol force_from_heat (finderb t delays)))
    masses
  v ++ accel

/-- `x0 = np.zeros([2*L])` — initial condition passed to `solve_ivp` in
`calc_strain_map` (phononNum.py line 157). -/
def x0 (L : ℕ) : List ℚ :=
  List.replicate (2 * L) 0

/-- `PhononNum.calc_strain_map` post-processing (phononNum.py lines 152-220).
The externally supplied data are passed as parameters: `sticks` comes from
`calc_sticks_from_temp_map` (heat-expansion collaborator, `phonon.py`, not
part of the core), and `soly` is `sol.y`, the `[2L, T]` trajectory array
returned by SciPy's `solve_ivp` adaptive integrator (external library).

```python
if self.only_heat:
    strain_map = sticks/np.tile(thicknesses, [np.size(sticks, 0), 1])
    velocities = np.zeros_like(strain_map)
else:
    ... sol = solve_ivp(PhononNum.ode_func, [delays[0], delays[-1]], x0, ...)
    temp = np.diff(sol.y[0:L, :].T, 1, 1)
    strain_map = temp/np.tile(thicknesses[:-1], [np.size(temp, 0), 1])
    velocities = sol.y[L:, :].T
```
-/
def calc_strain_map (only_heat : Bool) (thicknesses : List ℚ)
    (sticks soly : List (List ℚ)) (L : ℕ) :
    List (List ℚ) × List (List ℚ) :=
  if only_heat then
    let strain_map := sticks.map fun row =>
      List.zipWith (fun a b => a / b) row thicknesses
    let velocities := strain_map.map fun row => row.map fun _ => 0
    (strain_map, velocities)
  else
    let temp := (matTranspose (soly.take L)).map npdiff
    let strain_map := temp.map fun row =>
      List.zipWith (fun a b => a / b) row thicknesses.dropLast
    let velocities := matTranspose (soly.drop L)
    (strain_map, velocities)

/-- A computed strain map, `[T, L]` or `[T, L-1]` row-major array. -/
abbrev StrainMap := List (List ℚ)

/-- The on-disk cache directory, modelled as an association list from file
names to artifacts.  `some sm` is a readable artifact holding `sm`;
`none` is a file that exists but is unreadable/corrupt, so that loading
it raises. -/
abbrev CacheStore := List (String × Option StrainMap)

/-- `os.path.exists` on the modelled cache directory. -/
def pathExists (cache : CacheStore) (filename : String) : Bool :=
  (cache.lookup filename).isSome

/-- `np.load`: `some` the stored array on success, `none` when the file is
unreadable/corrupt (the Python call raises in that case). -/
def npLoad (cache : CacheStore) (filename : String) : Option StrainMap :=
  match cache.lookup filename with
  | some (some sm) => some sm
  | _ => none

/-- `self.save(full_filename, [strain_map], ...)` — persists the strain map
under the file name (`Simulation.save`, not part of the core; modelled as
a store update). -/
def saveStrainMap (cache : CacheStore) (filename : String) (sm : StrainMap) :
    CacheStore :=
  (filename, some sm) :: cache

/-- Errors surfacing from `get_strain_map`: an unhandled exception raised by
`np.load` on an unreadable cache artifact. -/
inductive SimError where
  | ioError
deriving DecidableEq, Repr

/-- `PhononNum.get_strain_map(delays, temp_map, delta_temp_map)`
(phononNum.py lines 84-105).

```python
filename = 'strain_map_num_' + self.get_hash(delays, temp_map, delta_temp_map) + '.npy'
full_filename = path.abspath(path.join(self.cache_dir, filename))
if path.exists(full_filename) and not self.force_recalc:
    strain_map = np.load(full_filename)
else:
    strain_map, sticks_sub_systems, velocities = \
        self.calc_strain_map(delays, temp_map, delta_temp_map)
    self.save(full_filename, [strain_map], '_strain_map_num_')
return strain_map
```

Modelled from the spec where the code is outside `src/`: `get_hash`
(defined on the `Simulation` base class, absent from `src/`) is a
deterministic content hash of the inputs, passed here as the function
parameter `hash`; `calcFn` stands for `self.calc_strain_map` restricted to
its first component (a deterministic function of the inputs).  There is
no `try/except` around `np.load` in the source, so an unreadable artifact
surfaces as `SimError.ioError`.  The returned `Bool` records whether the
computing branch (and hence the ODE integrator) was invoked. -/
def get_strain_map
    (hash : List ℚ → List (List ℚ) → List (List ℚ) → String)
    (force_recalc : Bool) (cache : CacheStore)
    (delays : List ℚ) (temp_map delta_temp_map : List (List ℚ))
    (calcFn : List ℚ → List (List ℚ) → List (List ℚ) → StrainMap) :
    Except SimError (StrainMap × CacheStore × Bool) :=
  let filename := "strain_map_num_" ++ hash delays temp_map delta_temp_map ++ ".npy"
  if pathExists cache filename && !force_recalc then
    match npLoad cache filename with
    | some strain_map => .ok (strain_map, cache, false)
    | none => .error .ioError
  else
    let strain_map := calcFn delays temp_map delta_temp_map
    .ok (strain_map, saveStrainMap cache filename strain_map, true)

/-! ## Helper lemmas -/

theorem getD_eq_zero_of_le (l : List ℚ) (i : ℕ) (h : l.length ≤ i) :
    l.getD i 0 = 0 := by
  simp [List.getD_eq_getElem?_getD, List.getElem?_eq_none h]

theorem getD_zipWith (f : ℚ → ℚ → ℚ) (as bs : List ℚ) (i : ℕ)
    (ha : i < as.length) (hb : i < bs.length) :
    (List.zipWith f as bs).getD i 0 = f (as.getD i 0) (bs.getD i 0) := by
  rw [List.getD_eq_getElem _ _ (by simp [List.length_zipWith]; omega),
    List.getD_eq_getElem _ _ ha, List.getD_eq_getElem _ _ hb,
    List.getElem_zipWith]

theorem length_npdiff (x : List ℚ) : (npdiff x).length = x.length - 1 := by
  simp [npdiff, List.length_zipWith]

theorem getD_npdiff (x : List ℚ) (i : ℕ) (h : i + 1 < x.length) :
    (npdiff x).getD i 0 = x.getD (i + 1) 0 - x.getD i 0 := by
  rw [npdiff, getD_zipWith _ _ _ _ (by simp; omega) (by omega)]
  congr 1
  rw [List.getD_eq_getElem _ _ (by simp; omega), List.getD_eq_getElem _ _ h,
    List.getElem_tail]

theorem dotPow_replicate_zero (n : ℕ) (d : ℚ) :
    dotPow (List.replicate n 0) d = 0 := by
  simp only [dotPow]
  refine Finset.sum_eq_zero fun j hj => ?_
  rw [List.getD_eq_getElem _ _ (by simpa using Finset.mem_range.mp hj)]
  simp

theorem dotPow_map_neg (ks : List ℚ) (d : ℚ) :
    dotPow (ks.map Neg.neg) d = -dotPow ks d := by
  simp only [dotPow, List.length_map, ← Finset.sum_neg_distrib]
  refine Finset.sum_congr rfl fun j hj => ?_
  rw [List.getD_eq_getElem _ _ (by simpa using Finset.mem_range.mp hj),
    List.getD_eq_getElem _ _ (by simpa using Finset.mem_range.mp hj),
    List.getElem_map]
  ring

theorem dotPow_eq_sum_range (ks : List ℚ) (d : ℚ) (M : ℕ) (h : ks.length = M) :
    dotPow ks d = ∑ j ∈ Finset.range M, ks.getD j 0 * d ^ (j + 1) := by
  rw [dotPow, h]

theorem length_calc_force_from_spring (d1 d2 : List ℚ) (K : List (List ℚ)) :
    (calc_force_from_spring d1 d2 K).length = d1.length := by
  simp [calc_force_from_spring]

theorem getD_map_range (f : ℕ → ℚ) (n i : ℕ) (h : i < n) :
    ((List.range n).map f).getD i 0 = f i := by
  rw [List.getD_eq_getElem _ _ (by simpa using h), List.getElem_map,
    List.getElem_range]

theorem coeff1_getD (K : List (List ℚ)) (zr : List ℚ) (i : ℕ)
    (hi : i + 1 < K.length) :
    (K.dropLast.map (List.map Neg.neg) ++ [zr]).getD i zr
      = (K.getD i []).map Neg.neg := by
  rw [List.getD_eq_getElem _ _ (by simp [List.length_dropLast]; omega),
    List.getElem_append_left (by simp [List.length_dropLast]; omega),
    List.getElem_map, List.getElem_dropLast,
    List.getD_eq_getElem _ _ (by omega)]

theorem coeff1_getD_last (K : List (List ℚ)) (zr : List ℚ) (i : ℕ)
    (hi : ¬ i + 1 < K.length) :
    (K.dropLast.map (List.map Neg.neg) ++ [zr]).getD i zr = zr := by
  by_cases hlt : i < K.dropLast.length + 1
  · rw [List.getD_eq_getElem _ _ (by simpa using hlt),
      List.getElem_append_right (by simp [List.length_dropLast] at hlt ⊢; omega)]
    simp
  · exact List.getD_eq_default _ _ (by simpa using hlt)

theorem coeff2_getD (K : List (List ℚ)) (zr : List ℚ) (i : ℕ)
    (h1 : 1 ≤ i) (h2 : i < K.length) :
    (zr :: K.dropLast.map (List.map Neg.neg)).getD i zr
      = (K.getD (i - 1) []).map Neg.neg := by
  cases i with
  | zero => omega
  | succ j =>
    rw [List.getD_cons_succ, Nat.succ_sub_one, List.getD_eq_getElem _ _
        (by simp [List.length_dropLast]; omega),
      List.getElem_map, List.getElem_dropLast,
      List.getD_eq_getElem _ _ (by omega)]

theorem coeff2_getD_zero (K : List (List ℚ)) (zr : List ℚ) :
    (zr :: K.dropLast.map (List.map Neg.neg)).getD 0 zr = zr :=
  List.getD_cons_zero

/-- Indexwise description of `calc_force_from_spring`: entry `i` of the result
is `Σ_j K[i][j]·d1[i]^(j+1)` (dropped when `i` is the last layer)
minus `Σ_j K[i-1][j]·d2[i]^(j+1)` (dropped when `i = 0`). -/
theorem calc_force_from_spring_getD (d1 d2 : List ℚ) (K : List (List ℚ))
    (i : ℕ) (hi : i < d1.length) (hK : K.length = d1.length) :
    (calc_force_from_spring d1 d2 K).getD i 0 =
      (if i + 1 < K.length then dotPow (K.getD i []) (d1.getD i 0) else 0)
      - (if 1 ≤ i then dotPow (K.getD (i - 1) []) (d2.getD i 0) else 0) := by
  simp only [calc_force_from_spring]
  rw [getD_map_range _ _ _ hi]
  by_cases h1 : i + 1 < K.length
  · rw [if_pos h1, coeff1_getD K _ i h1, dotPow_map_neg]
    by_cases h2 : 1 ≤ i
    · rw [if_pos h2, coeff2_getD K _ i h2 (by omega), dotPow_map_neg]
      ring
    · have h0 : i = 0 := by omega
      subst h0
      rw [if_neg h2, coeff2_getD_zero K, dotPow_replicate_zero]
      ring
  · rw [if_neg h1, coeff1_getD_last K _ i h1, dotPow_replicate_zero]
    by_cases h2 : 1 ≤ i
    · rw [if_pos h2, coeff2_getD K _ i h2 (by omega), dotPow_map_neg]
      ring
    · have h0 : i = 0 := by omega
      subst h0
      rw [if_neg h2, coeff2_getD_zero K, dotPow_replicate_zero]

theorem getD_map_range_any {α : Type} (f : ℕ → α) (d : α) (n i : ℕ) (h : i < n) :
    ((List.range n).map f).getD i d = f i := by
  rw [List.getD_eq_getElem _ _ (by simpa using h), List.getElem_map,
    List.getElem_range]

theorem getD_append_left2 (l1 l2 : List ℚ) (i : ℕ) (h : i < l1.length) :
    (l1 ++ l2).getD i 0 = l1.getD i 0 := by
  rw [List.getD_eq_getElem _ _ (by simp; omega),
    List.getElem_append_left h, List.getD_eq_getElem _ _ h]

theorem getD_append_right2 (l1 l2 : List ℚ) (i : ℕ) (h : l1.length ≤ i) :
    (l1 ++ l2).getD i 0 = l2.getD (i - l1.length) 0 := by
  by_cases h2 : i < l1.length + l2.length
  · rw [List.getD_eq_getElem _ _ (by simp; omega),
      List.getElem_append_right h, List.getD_eq_getElem _ _ (by omega)]
  · rw [List.getD_eq_default _ _ (by simp; omega),
      List.getD_eq_default _ _ (by omega)]

theorem getD_drop (X : List ℚ) (L i : ℕ) :
    (X.drop L).getD i 0 = X.getD (L + i) 0 := by
  by_cases h : L + i < X.length
  · rw [List.getD_eq_getElem _ _ (by simp; omega),
      List.getD_eq_getElem _ _ h, List.getElem_drop]
  · rw [List.getD_eq_default _ _ (by simp; omega),
      List.getD_eq_default _ _ (by omega)]

theorem getD_take (X : List ℚ) (L i : ℕ) (h : i < L) :
    (X.take L).getD i 0 = X.getD i 0 := by
  by_cases h2 : i < X.length
  · rw [List.getD_eq_getElem _ _ (by simp; omega),
      List.getD_eq_getElem _ _ h2, List.getElem_take]
  · rw [List.getD_eq_default _ _ (by simp; omega),
      List.getD_eq_default _ _ (by omega)]

theorem getD_matCol (F : List (List ℚ)) (j i : ℕ) (h : i < F.length) :
    (matCol F j).getD i 0 = (F.getD i []).getD j 0 := by
  rw [matCol, List.getD_eq_getElem _ _ (by simpa using h),
    List.getElem_map, List.getD_eq_getElem _ _ h]

theorem getD_singleton_zero (n : ℕ) : ([0] : List ℚ).getD n 0 = 0 := by
  cases n <;> rfl

theorem getD_map_in {α β : Type} (f : α → β) (l : List α) (da : α) (db : β)
    (i : ℕ) (h : i < l.length) :
    (l.map f).getD i db = f (l.getD i da) := by
  rw [List.getD_eq_getElem _ _ (by simpa using h), List.getElem_map,
    List.getD_eq_getElem _ _ h]

theorem getD_take_any {α : Type} (X : List α) (d : α) (L i : ℕ) (h : i < L) :
    (X.take L).getD i d = X.getD i d := by
  by_cases h2 : i < X.length
  · rw [List.getD_eq_getElem _ _ (by simp; omega),
      List.getD_eq_getElem _ _ h2, List.getElem_take]
  · rw [List.getD_eq_default _ _ (by simp; omega),
      List.getD_eq_default _ _ (by omega)]

theorem getD_drop_any {α : Type} (X : List α) (d : α) (L i : ℕ) :
    (X.drop L).getD i d = X.getD (L + i) d := by
  by_cases h : L + i < X.length
  · rw [List.getD_eq_getElem _ _ (by simp; omega),
      List.getD_eq_getElem _ _ h, List.getElem_drop]
  · rw [List.getD_eq_default _ _ (by simp; omega),
      List.getD_eq_default _ _ (by omega)]

theorem getD_dropLast_q (l : List ℚ) (i : ℕ) (h : i < l.length - 1) :
    l.dropLast.getD i 0 = l.getD i 0 := by
  rw [List.getD_eq_getElem _ _ (by simp [List.length_dropLast]; omega),
    List.getElem_dropLast, List.getD_eq_getElem _ _ (by omega)]

theorem getD_map_const_zero (l : List ℚ) (n : ℕ) :
    (l.map fun _ => (0 : ℚ)).getD n 0 = 0 := by
  by_cases h : n < l.length
  · rw [List.getD_eq_getElem _ _ (by simpa using h), List.getElem_map]
  · exact List.getD_eq_default _ _ (by simpa using h)

theorem headD_eq_getD_zero {α : Type} (l : List α) (d : α) :
    l.headD d = l.getD 0 d := by
  cases l <;> rfl

/-! ## Claim C2 — damping force -/

/-- C2, code-bug evaluation: the claim (and the function's own docstring,
`F_i^{damp} = γ_i(v_i − v_{i-1})`) requires
`F_i = mass_i · damping_i · (v_i − v_{i-1})` with `v_{-1} = 0`, which at
`v = [1,1]`, `damping = [1,1]`, `masses = [1,1]` yields `[1, 0]`.  The source
computes `masses*damping*np.diff(v, 0)`, and `np.diff(v, 0)` is the zeroth
difference — a no-op — so the code actually returns `[1, 1]`:
`mass_i · damping_i · v_i` with no velocity difference at all. -/
theorem C2_damping_code_eval :
    calc_force_from_damping [1, 1] [1, 1] [1, 1] = [1, 1]
      ∧ ([1, 1] : List ℚ) ≠ [1, 0] := by
  constructor
  · simp [calc_force_from_damping]
  · decide

/-! ## Claim C3 — spring force -/

/-- C3, counterexample: the claim states
`F_i = -Σ_j k_i^j·(leftDiff_i)^j + Σ_j k_{i+1}^j·(rightDiff_i)^j` with the
left-difference vector as first argument (spec §4.1 signature), the missing
contribution of layer `0` (no left neighbor) and of the last layer (no right
neighbor) being zero.  At `leftDiff = [1, 0]`, `rightDiff = [0, 0]`,
`k = [[5], [7]]` that formula gives `[0, 0]` — layer 0's `k`-weighted
`leftDiff` term is the dropped left-neighbor contribution, and both
`rightDiff` entries vanish — under either a 0- or 1-based reading of the
row index of `k`.  The code returns `[5, 0]`: it multiplies the FIRST
argument by row `i` of `k` with a positive sign (zeroed at the LAST layer)
and the SECOND argument by row `i-1` with a negative sign (zeroed at
layer 0). -/
theorem C3_spring_counterexample :
    calc_force_from_spring [1, 0] [0, 0] [[5], [7]] = [5, 0]
      ∧ ([5, 0] : List ℚ) ≠ [0, 0] := by
  constructor
  · simp [calc_force_from_spring, dotPow, List.range_succ, Finset.sum_range_succ]
  · decide

/-- C3, amended: for layer-aligned inputs (`d1`, `d2`, and `K` of `L` rows,
each of width `M`), entry `i` of `calc_force_from_spring d1 d2 K` equals
`Σ_{j=1..M} K[i][j-1]·d1[i]^j − Σ_{j=1..M} K[i-1][j-1]·d2[i]^j`, where the
first (second-argument) sum is dropped at the last layer (resp. at layer 0):
relative to the claim, the roles of the two difference arguments are
exchanged and the neighbor row of `K` is `i-1`, not `i+1` (equivalently, the
claim's formula holds with a 1-based row index for `k` and with `leftDiff`
passed as the SECOND argument and `rightDiff` as the first).  The last row
of `K` is never used, and the chain is open, not periodic. -/
theorem C3_spring_amended (d1 d2 : List ℚ) (K : List (List ℚ)) (L M : ℕ)
    (h1 : d1.length = L) (h2 : d2.length = L) (hK : K.length = L)
    (hM : ∀ r ∈ K, r.length = M) :
    (calc_force_from_spring d1 d2 K).length = L
    ∧ ∀ i, i < L →
      (calc_force_from_spring d1 d2 K).getD i 0 =
        (if i + 1 < L then
          ∑ j ∈ Finset.range M, (K.getD i []).getD j 0 * d1.getD i 0 ^ (j + 1)
        else 0)
        - (if 1 ≤ i then
          ∑ j ∈ Finset.range M, (K.getD (i - 1) []).getD j 0 * d2.getD i 0 ^ (j + 1)
        else 0) := by
  refine ⟨by simp [length_calc_force_from_spring, h1], fun i hi => ?_⟩
  have hrow : ∀ n, n < L → (K.getD n []).length = M := by
    intro n hn
    refine hM _ ?_
    rw [List.getD_eq_getElem _ _ (by omega)]
    exact List.getElem_mem _
  rw [calc_force_from_spring_getD d1 d2 K i (by omega) (by omega), hK]
  by_cases hlast : i + 1 < L
  · rw [if_pos hlast, if_pos hlast,
      dotPow_eq_sum_range _ _ M (hrow i (by omega))]
    by_cases hfst : 1 ≤ i
    · rw [if_pos hfst, if_pos hfst,
        dotPow_eq_sum_range _ _ M (hrow (i - 1) (by omega))]
    · rw [if_neg hfst, if_neg hfst]
  · rw [if_neg hlast, if_neg hlast]
    by_cases hfst : 1 ≤ i
    · rw [if_pos hfst, if_pos hfst,
        dotPow_eq_sum_range _ _ M (hrow (i - 1) (by omega))]
    · rw [if_neg hfst, if_neg hfst]

/-- C3, witness for the amended theorem at `d1 = [1,0]`, `d2 = [0,1]`,
`K = [[1],[1]]`. -/
theorem C3_spring_amended_witness :
    (calc_force_from_spring [1, 0] [0, 1] [[1], [1]]).length = 2
    ∧ ∀ i, i < 2 →
      (calc_force_from_spring [1, 0] [0, 1] [[1], [1]]).getD i 0 =
        (if i + 1 < 2 then
          ∑ j ∈ Finset.range 1,
            ([[(1:ℚ)], [1]].getD i []).getD j 0 * ([(1:ℚ), 0].getD i 0) ^ (j + 1)
        else 0)
        - (if 1 ≤ i then
          ∑ j ∈ Finset.range 1,
            ([[(1:ℚ)], [1]].getD (i - 1) []).getD j 0 * ([(0:ℚ), 1].getD i 0) ^ (j + 1)
        else 0) :=
  C3_spring_amended [1, 0] [0, 1] [[1], [1]] 2 1 rfl rfl rfl (by decide)

/-! ## Claim C9 — single-layer stack -/

/-- C9, counterexample: the claim states that on a single-layer stack both
`calc_force_from_spring` and `calc_force_from_damping` return zero force for
every input; but for `L = 1` with velocity `[2]`, damping `[3]`, mass `[5]`
the damping force is `[30] ≠ [0]` (the code computes
`mass·damping·np.diff(v, 0) = mass·damping·v`; even the docstring formula
`γ(v_0 − v_{-1})` with `v_{-1} = 0` gives `m·γ·v_0 = 30` here). -/
theorem C9_counterexample :
    calc_force_from_damping [2] [3] [5] = [30] ∧ ([30] : List ℚ) ≠ [0] := by
  constructor
  · simp [calc_force_from_damping]
    norm_num
  · decide

/-- C9, amended: on a single-layer stack (`L = 1`) the spring force is `[0]`
for every displacement-difference pair and every (single-row) spring-constant
matrix, and no out-of-range access occurs; the damping force, however, is
`[mass·damping·velocity]`, which is nonzero in general. -/
theorem C9_single_layer_amended (d1 d2 v g m : ℚ) (ks : List ℚ) :
    calc_force_from_spring [d1] [d2] [ks] = [0]
    ∧ calc_force_from_damping [v] [g] [m] = [m * g * v] := by
  constructor
  · simp [calc_force_from_spring, List.range_succ, dotPow_replicate_zero]
  · simp [calc_force_from_damping]

/-- C9, witness instantiating the amended theorem at concrete values. -/
theorem C9_single_layer_amended_witness :
    calc_force_from_spring [1] [2] [[6]] = [0]
    ∧ calc_force_from_damping [3] [4] [5] = [5 * 4 * 3] :=
  C9_single_layer_amended 1 2 3 4 5 [6]

/-! ## Claim C10 — independence from the deepest layer's constants -/

/-- C10: `calc_force_from_spring` only reads `spring_consts` through
`spring_consts[0:-1]` (and the width of its first row), so two spring-constant
matrices of identical shape differing only in their last row produce identical
forces; consequently `calc_force_from_heat` is independent of the last row of
its spring-constant input, and — since it only reads `sticks[i, 0:L-1]` — it
is also independent of the last column of the sticks matrix. -/
theorem C10_deepest_layer_independent (d1 d2 : List ℚ)
    (K K2 sticks sticks2 : List (List ℚ))
    (hKdrop : K.dropLast = K2.dropLast)
    (hKhead : (K.headD []).length = (K2.headD []).length)
    (hslen : sticks.length = sticks2.length)
    (hshead : (sticks.headD []).length = (sticks2.headD []).length)
    (hsdrop : ∀ i, (sticks.getD i []).dropLast = (sticks2.getD i []).dropLast)
    (hsrect : ∀ r ∈ sticks, r.length = (sticks.headD []).length)
    (hsrect2 : ∀ r ∈ sticks2, r.length = (sticks2.headD []).length) :
    calc_force_from_spring d1 d2 K = calc_force_from_spring d1 d2 K2
    ∧ calc_force_from_heat sticks K = calc_force_from_heat sticks K2
    ∧ calc_force_from_heat sticks K = calc_force_from_heat sticks2 K := by
  have hspring : ∀ a b : List ℚ,
      calc_force_from_spring a b K = calc_force_from_spring a b K2 := by
    intro a b
    rw [calc_force_from_spring, calc_force_from_spring, hKdrop, hKhead]
  refine ⟨hspring d1 d2, ?_, ?_⟩
  · simp only [calc_force_from_heat, hspring]
  · have htake : ∀ i,
        (sticks.getD i []).take ((sticks2.headD []).length - 1)
          = (sticks2.getD i []).take ((sticks2.headD []).length - 1) := by
      intro i
      by_cases hi : i < sticks.length
      · have hmem : sticks.getD i [] ∈ sticks := by
          rw [List.getD_eq_getElem _ _ hi]
          exact List.getElem_mem _
        have hmem2 : sticks2.getD i [] ∈ sticks2 := by
          rw [List.getD_eq_getElem _ _ (by omega)]
          exact List.getElem_mem _
        have e1 : (sticks.getD i []).length = (sticks2.headD []).length := by
          rw [hsrect _ hmem, hshead]
        have e2 : (sticks2.getD i []).length = (sticks2.headD []).length :=
          hsrect2 _ hmem2
        have h1 : (sticks.getD i []).take ((sticks2.headD []).length - 1)
            = (sticks.getD i []).dropLast := by
          rw [List.dropLast_eq_take, e1]
        have h2 : (sticks2.getD i []).take ((sticks2.headD []).length - 1)
            = (sticks2.getD i []).dropLast := by
          rw [List.dropLast_eq_take, e2]
        rw [h1, h2, hsdrop i]
      · rw [List.getD_eq_default _ _ (by omega),
          List.getD_eq_default _ _ (by omega)]
    rw [calc_force_from_heat, calc_force_from_heat, hslen, hshead]
    simp only [htake]

/-- C10, witness at `K = [[2],[3]]` vs `K2 = [[2],[4]]` and
`sticks = [[1,5]]` vs `sticks2 = [[1,6]]`. -/
theorem C10_witness :
    calc_force_from_spring [1, 0] [0, 1] [[2], [3]]
        = calc_force_from_spring [1, 0] [0, 1] [[2], [4]]
    ∧ calc_force_from_heat [[1, 5]] [[2], [3]]
        = calc_force_from_heat [[1, 5]] [[2], [4]]
    ∧ calc_force_from_heat [[1, 5]] [[2], [3]]
        = calc_force_from_heat [[1, 6]] [[2], [3]] :=
  C10_deepest_layer_independent [1, 0] [0, 1] [[2], [3]] [[2], [4]]
    [[1, 5]] [[1, 6]] rfl rfl rfl rfl
    (by intro i; cases i <;> rfl) (by decide) (by decide)

/-! ## Claim C1 — the state-derivative function -/

/-- C1, counterexample: the claim states that the acceleration half of
`ode_func` is the spring force evaluated on the neighbor displacement
differences `leftDiff_i = x_i - x_{i-1}` and `rightDiff_i = x_i - x_{i+1}`
(zero-padded at the open boundaries), plus damping and heat forces, divided
by the masses.  At `L = 2`, `X = [0,1,0,0]` (so `x = [0,1]`, `leftDiff =
[0,1]`, `rightDiff = [-1,0]`), harmonic constants `[[1],[1]]`, no damping, no
heat, unit masses, `ode_func` returns `[0,0,1,-1]`; the claim's formula gives
`[0,0,0,0]` with the spec's §4.1 argument order (`leftDiff` first), and
`[0,0,-1,-1]` with the arguments swapped — the code actually evaluates the
spring force on the forward differences `x_{i+1} - x_i` (the NEGATED
right-differences) as first argument. -/
theorem C1_ode_counterexample :
    (ode_func 0 [0, 1, 0, 0] [0] [[0], [0]] [0, 0] [[1], [1]] [1, 1] 2
      ≠ ([0, 1, 0, 0] : List ℚ).drop 2 ++ List.zipWith (fun a b => a / b)
        (List.zipWith (fun a b => a + b)
          (List.zipWith (fun a b => a + b)
            (calc_force_from_damping (([0, 1, 0, 0] : List ℚ).drop 2) [0, 0] [1, 1])
            (calc_force_from_spring [0, 1] [-1, 0] [[1], [1]]))
          (matCol [[0], [0]] (finderb 0 [0])))
        [1, 1])
    ∧ (ode_func 0 [0, 1, 0, 0] [0] [[0], [0]] [0, 0] [[1], [1]] [1, 1] 2
      ≠ ([0, 1, 0, 0] : List ℚ).drop 2 ++ List.zipWith (fun a b => a / b)
        (List.zipWith (fun a b => a + b)
          (List.zipWith (fun a b => a + b)
            (calc_force_from_damping (([0, 1, 0, 0] : List ℚ).drop 2) [0, 0] [1, 1])
            (calc_force_from_spring [-1, 0] [0, 1] [[1], [1]]))
          (matCol [[0], [0]] (finderb 0 [0])))
        [1, 1]) := by
  have h0 : ode_func 0 [0, 1, 0, 0] [0] [[0], [0]] [0, 0] [[1], [1]] [1, 1] 2
      = [0, 0, 1, -1] := by
    simp [ode_func, calc_force_from_damping, calc_force_from_spring, dotPow,
      npdiff, matCol, finderb, List.range_succ, Finset.sum_range_succ]
  constructor
  · have h1 : calc_force_from_spring [0, 1] [-1, 0] [[(1:ℚ)], [1]] = [0, 0] := by
      simp [calc_force_from_spring, dotPow, List.range_succ, Finset.sum_range_succ]
    rw [h0, h1]
    simp [calc_force_from_damping, matCol, finderb]
  · have h2 : calc_force_from_spring [-1, 0] [0, 1] [[(1:ℚ)], [1]] = [-1, -1] := by
      simp [calc_force_from_spring, dotPow, List.range_succ, Finset.sum_range_succ]
    rw [h0, h2]
    simp [calc_force_from_damping, matCol, finderb]
    norm_num

/-- C1, amended: for every `L ≥ 1`, every state `X` of length `2L` and
layer-aligned `damping`, `masses`, spring-constant and heat-force inputs, the
first `L` entries of `ode_func` equal the last `L` entries of `X` (the
velocities), and the last `L` entries equal
`(dampingForce + springForce + heat column)/masses` elementwise, where the
heat column is the one selected by the sampler `finderb` at time `t`, and
where the spring force receives as FIRST argument the forward differences
`d1_i = x_{i+1} - x_i` (the negation of the claim's `rightDiff`, zero-padded
at the deep boundary) and as SECOND argument `leftDiff_i = x_i - x_{i-1}`
(zero-padded at the surface boundary) — the two middle conjuncts exhibit the
two difference vectors entrywise. -/
theorem ode_forward_diff_eq (X : List ℚ) (L : ℕ) (hL : 1 ≤ L)
    (hX : X.length = 2 * L) :
    npdiff (X.take L) ++ [0]
      = (List.range L).map (fun i =>
          if i + 1 < L then X.getD (i + 1) 0 - X.getD i 0 else 0) := by
  have hx : (X.take L).length = L := by simp; omega
  have hnd : (npdiff (X.take L)).length = L - 1 := by rw [length_npdiff, hx]
  have hd1 : (npdiff (X.take L) ++ [0]).length = L := by simp [hnd]; omega
  refine List.ext_getElem (by rw [hd1]; simp) (fun i h1 h2 => ?_)
  rw [← List.getD_eq_getElem _ 0 h1, ← List.getD_eq_getElem _ 0 h2]
  rw [getD_map_range_any _ _ _ _ (by simpa using h2)]
  rw [hd1] at h1
  by_cases hi : i + 1 < L
  · rw [if_pos hi, getD_append_left2 _ _ _ (by rw [hnd]; omega),
      getD_npdiff _ _ (by rw [hx]; omega), getD_take X L (i + 1) (by omega),
      getD_take X L i (by omega)]
  · rw [if_neg hi, getD_append_right2 _ _ _ (by rw [hnd]; omega),
      getD_singleton_zero]

theorem ode_left_diff_eq (X : List ℚ) (L : ℕ) (hL : 1 ≤ L)
    (hX : X.length = 2 * L) :
    0 :: npdiff (X.take L)
      = (List.range L).map (fun i =>
          if 1 ≤ i then X.getD i 0 - X.getD (i - 1) 0 else 0) := by
  have hx : (X.take L).length = L := by simp; omega
  have hnd : (npdiff (X.take L)).length = L - 1 := by rw [length_npdiff, hx]
  have hd2 : ((0 : ℚ) :: npdiff (X.take L)).length = L := by simp [hnd]; omega
  refine List.ext_getElem (by rw [hd2]; simp) (fun i h1 h2 => ?_)
  rw [← List.getD_eq_getElem _ 0 h1, ← List.getD_eq_getElem _ 0 h2]
  rw [hd2] at h1
  rw [getD_map_range_any _ _ _ _ (by simpa using h2)]
  cases i with
  | zero => rw [List.getD_cons_zero]; simp
  | succ j =>
    rw [List.getD_cons_succ, getD_npdiff _ _ (by rw [hx]; omega),
      getD_take X L (j + 1) (by omega), getD_take X L j (by omega)]
    simp

theorem C1_ode_func_amended (t : ℚ) (X delays damping masses : List ℚ)
    (force_from_heat K : List (List ℚ)) (L : ℕ)
    (hL : 1 ≤ L) (hX : X.length = 2 * L) (hm : masses.length = L)
    (hd : damping.length = L) (hK : K.length = L)
    (hF : force_from_heat.length = L) :
    (ode_func t X delays force_from_heat damping K masses L).length = 2 * L
    ∧ (∀ i, i < L →
        (ode_func t X delays force_from_heat damping K masses L).getD i 0
          = X.getD (L + i) 0)
    ∧ npdiff (X.take L) ++ [0]
        = (List.range L).map (fun i =>
            if i + 1 < L then X.getD (i + 1) 0 - X.getD i 0 else 0)
    ∧ 0 :: npdiff (X.take L)
        = (List.range L).map (fun i =>
            if 1 ≤ i then X.getD i 0 - X.getD (i - 1) 0 else 0)
    ∧ ∀ i, i < L →
        (ode_func t X delays force_from_heat damping K masses L).getD (L + i) 0
          = ((calc_force_from_damping (X.drop L) damping masses).getD i 0
            + (calc_force_from_spring (npdiff (X.take L) ++ [0])
                (0 :: npdiff (X.take L)) K).getD i 0
            + (force_from_heat.getD i []).getD (finderb t delays) 0)
            / masses.getD i 0 := by
  have hx : (X.take L).length = L := by simp; omega
  have hv : (X.drop L).length = L := by simp; omega
  have hnd : (npdiff (X.take L)).length = L - 1 := by rw [length_npdiff, hx]
  have hd1 : (npdiff (X.take L) ++ [0]).length = L := by simp [hnd]; omega
  have hdampl : (calc_force_from_damping (X.drop L) damping masses).length = L := by
    simp [calc_force_from_damping, List.length_zipWith, hv, hm, hd]
  have hsprl : (calc_force_from_spring (npdiff (X.take L) ++ [0])
      (0 :: npdiff (X.take L)) K).length = L := by
    rw [length_calc_force_from_spring, hd1]
  have hheatl : (matCol force_from_heat (finderb t delays)).length = L := by
    simp [matCol, hF]
  have hsum1 : (List.zipWith (fun a b => a + b)
      (calc_force_from_damping (X.drop L) damping masses)
      (calc_force_from_spring (npdiff (X.take L) ++ [0])
        (0 :: npdiff (X.take L)) K)).length = L := by
    rw [List.length_zipWith, hdampl, hsprl]
    simp
  have hsum2 : (List.zipWith (fun a b => a + b)
      (List.zipWith (fun a b => a + b)
        (calc_force_from_damping (X.drop L) damping masses)
        (calc_force_from_spring (npdiff (X.take L) ++ [0])
          (0 :: npdiff (X.take L)) K))
      (matCol force_from_heat (finderb t delays))).length = L := by
    rw [List.length_zipWith, hsum1, hheatl]
    simp
  have haccel : (List.zipWith (fun a b => a / b)
      (List.zipWith (fun a b => a + b)
        (List.zipWith (fun a b => a + b)
          (calc_force_from_damping (X.drop L) damping masses)
          (calc_force_from_spring (npdiff (X.take L) ++ [0])
            (0 :: npdiff (X.take L)) K))
        (matCol force_from_heat (finderb t delays)))
      masses).length = L := by
    rw [List.length_zipWith, hsum2, hm]
    simp
  refine ⟨?_, ?_, ode_forward_diff_eq X L hL hX, ode_left_diff_eq X L hL hX, ?_⟩
  · simp only [ode_func]
    rw [List.length_append, hv, haccel]
    exact (two_mul L).symm
  · intro i hi
    simp only [ode_func]
    rw [getD_append_left2 _ _ _ (by rw [hv]; exact hi), getD_drop]
  · intro i hi
    simp only [ode_func]
    rw [getD_append_right2 _ _ _ (by rw [hv]; exact Nat.le_add_right L i), hv,
      Nat.add_sub_cancel_left,
      getD_zipWith _ _ _ _ (by rw [hsum2]; exact hi) (by rw [hm]; exact hi),
      getD_zipWith _ _ _ _ (by rw [hsum1]; exact hi) (by rw [hheatl]; exact hi),
      getD_zipWith _ _ _ _ (by rw [hdampl]; exact hi) (by rw [hsprl]; exact hi),
      getD_matCol _ _ _ (by rw [hF]; exact hi)]

/-- C1, witness for the amended theorem at `t = 0`, `X = [0,1,0,0]`,
`delays = [0]`, zero heat force, zero damping, harmonic springs `[[1],[1]]`,
unit masses, `L = 2`. -/
theorem C1_ode_func_amended_witness :
    (ode_func 0 [0, 1, 0, 0] [0] [[0], [0]] [0, 0] [[1], [1]] [1, 1] 2).length
        = 2 * 2
    ∧ (∀ i, i < 2 →
        (ode_func 0 [0, 1, 0, 0] [0] [[0], [0]] [0, 0] [[1], [1]] [1, 1]
          2).getD i 0 = ([(0:ℚ), 1, 0, 0]).getD (2 + i) 0)
    ∧ npdiff (([(0:ℚ), 1, 0, 0]).take 2) ++ [0]
        = (List.range 2).map (fun i =>
            if i + 1 < 2 then
              ([(0:ℚ), 1, 0, 0]).getD (i + 1) 0 - ([(0:ℚ), 1, 0, 0]).getD i 0
            else 0)
    ∧ 0 :: npdiff (([(0:ℚ), 1, 0, 0]).take 2)
        = (List.range 2).map (fun i =>
            if 1 ≤ i then
              ([(0:ℚ), 1, 0, 0]).getD i 0 - ([(0:ℚ), 1, 0, 0]).getD (i - 1) 0
            else 0)
    ∧ ∀ i, i < 2 →
        (ode_func 0 [0, 1, 0, 0] [0] [[0], [0]] [0, 0] [[1], [1]] [1, 1]
          2).getD (2 + i) 0
          = ((calc_force_from_damping (([(0:ℚ), 1, 0, 0]).drop 2) [0, 0]
                [1, 1]).getD i 0
            + (calc_force_from_spring (npdiff (([(0:ℚ), 1, 0, 0]).take 2) ++ [0])
                (0 :: npdiff (([(0:ℚ), 1, 0, 0]).take 2)) [[1], [1]]).getD i 0
            + (([[(0:ℚ)], [0]]).getD i []).getD (finderb 0 [0]) 0)
            / ([(1:ℚ), 1]).getD i 0 :=
  C1_ode_func_amended 0 [0, 1, 0, 0] [0] [0, 0] [1, 1] [[0], [0]] [[1], [1]] 2
    (by norm_num) (by norm_num) (by norm_num) (by norm_num) (by norm_num)
    (by norm_num)

/-! ## Claim C4 — heat force matrix -/

/-- C4, counterexample: the claim states `calc_force_from_heat` returns a
matrix of shape `[T, L]`.  For `sticks = [[1, 2]]` (one time sample, two
layers, so `T = 1`) the code executes `M, L = np.shape(sticks)` and
`F = np.zeros([L, M])` — the result has `L = 2` rows, not `T = 1`: the
returned matrix is the TRANSPOSE `[L, T]` of the claimed shape. -/
theorem C4_heat_counterexample :
    (calc_force_from_heat [[1, 2]] [[1], [1]]).length = 2
    ∧ (2 : ℕ) ≠ [[(1:ℚ), 2]].length := by
  constructor
  · simp [calc_force_from_heat]
  · decide

/-- C4, amended: for a rectangular sticks matrix of `T ≥ 1` time rows and
`L ≥ 1` layers, `calc_force_from_heat` returns a matrix of shape `[L, T]`
(not `[T, L]`), whose time-sample COLUMN `i` is one independent call to the
spring-force primitive, negated, applied to the first `L-1` stick elongations
of row `i` treated as imposed displacement differentials, zero-padded at the
boundaries (trailing zero in the first argument, leading zero in the
second). -/
theorem C4_heat_amended (sticks K : List (List ℚ)) (T L : ℕ)
    (hT : sticks.length = T) (hT1 : 1 ≤ T) (hL1 : 1 ≤ L)
    (hrect : ∀ r ∈ sticks, r.length = L) :
    (calc_force_from_heat sticks K).length = L
    ∧ (∀ r ∈ calc_force_from_heat sticks K, r.length = T)
    ∧ ∀ i, i < T →
        (List.range L).map (fun l =>
          ((calc_force_from_heat sticks K).getD l []).getD i 0)
          = (calc_force_from_spring ((sticks.getD i []).take (L - 1) ++ [0])
              (0 :: (sticks.getD i []).take (L - 1)) K).map Neg.neg := by
  have hhead : (sticks.headD []).length = L := by
    cases sticks with
    | nil => simp at hT; omega
    | cons r rest => simpa using hrect r (by simp)
  refine ⟨by simpa [calc_force_from_heat] using hhead, ?_, ?_⟩
  · intro r hr
    simp only [calc_force_from_heat] at hr
    obtain ⟨l, hl, rfl⟩ := List.mem_map.mp hr
    simp [hT]
  · intro i hi
    have hrow : (sticks.getD i []).length = L := by
      refine hrect _ ?_
      rw [List.getD_eq_getElem _ _ (by omega)]
      exact List.getElem_mem _
    have hsprlen : (calc_force_from_spring
        ((sticks.getD i []).take (L - 1) ++ [0])
        (0 :: (sticks.getD i []).take (L - 1)) K).length = L := by
      rw [length_calc_force_from_spring, List.length_append,
        List.length_take, hrow]
      simp only [List.length_cons, List.length_nil]
      omega
    refine List.ext_getElem
      (by simp only [List.length_map, List.length_range]; exact hsprlen.symm)
      (fun l hl1 hl2 => ?_)
    rw [← List.getD_eq_getElem _ 0 hl1, ← List.getD_eq_getElem _ 0 hl2]
    have hLl : l < L := by simpa using hl1
    rw [getD_map_range_any _ _ _ _ hLl]
    simp only [calc_force_from_heat]
    rw [getD_map_range_any _ _ _ _
        (show l < (sticks.headD []).length by rw [hhead]; exact hLl),
      getD_map_range_any _ _ _ _
        (show i < sticks.length by rw [hT]; exact hi),
      hhead]

/-- C4, witness for the amended theorem at `sticks = [[1, 2]]`,
`K = [[1], [1]]` (`T = 1`, `L = 2`). -/
theorem C4_heat_amended_witness :
    (calc_force_from_heat [[1, 2]] [[1], [1]]).length = 2
    ∧ (∀ r ∈ calc_force_from_heat [[1, 2]] [[1], [1]], r.length = 1)
    ∧ ∀ i, i < 1 →
        (List.range 2).map (fun l =>
          ((calc_force_from_heat [[1, 2]] [[1], [1]]).getD l []).getD i 0)
          = (calc_force_from_spring
              ((([[(1:ℚ), 2]]).getD i []).take (2 - 1) ++ [0])
              (0 :: (([[(1:ℚ), 2]]).getD i []).take (2 - 1)) [[1], [1]]).map
              Neg.neg :=
  C4_heat_amended [[1, 2]] [[1], [1]] 1 2 rfl (by norm_num) (by norm_num)
    (by decide)

/-! ## Claim C5 — heat-only mode -/

/-- C5: with `only_heat = true`, `calc_strain_map` returns the strain map
`sticks / thicknesses` elementwise (shape `[T, L]`), a velocity map that is
identically zero, and it bypasses the ODE system entirely — the result does
not depend on the trajectory input at all. -/
theorem C5_only_heat (thicknesses : List ℚ) (sticks soly soly2 : List (List ℚ))
    (L T : ℕ) (hT : sticks.length = T) (hrect : ∀ r ∈ sticks, r.length = L)
    (hth : thicknesses.length = L) :
    ((calc_strain_map true thicknesses sticks soly L).1.length = T
      ∧ (∀ r ∈ (calc_strain_map true thicknesses sticks soly L).1, r.length = L)
      ∧ ∀ u i, u < T → i < L →
          ((calc_strain_map true thicknesses sticks soly L).1.getD u []).getD i 0
            = (sticks.getD u []).getD i 0 / thicknesses.getD i 0)
    ∧ ((calc_strain_map true thicknesses sticks soly L).2.length = T
      ∧ (∀ r ∈ (calc_strain_map true thicknesses sticks soly L).2, r.length = L)
      ∧ ∀ u i,
          ((calc_strain_map true thicknesses sticks soly L).2.getD u []).getD i 0
            = 0)
    ∧ calc_strain_map true thicknesses sticks soly L
        = calc_strain_map true thicknesses sticks soly2 L := by
  have hunfold : calc_strain_map true thicknesses sticks soly L
      = (sticks.map fun row => List.zipWith (fun a b => a / b) row thicknesses,
        (sticks.map fun row =>
          List.zipWith (fun a b => a / b) row thicknesses).map
          fun row => row.map fun _ => 0) := rfl
  rw [hunfold]
  have hstrainlen : (sticks.map fun row =>
      List.zipWith (fun a b => a / b) row thicknesses).length = T := by
    simp [hT]
  have hstrainrows : ∀ r ∈ (sticks.map fun row =>
      List.zipWith (fun a b => a / b) row thicknesses), r.length = L := by
    intro r hr
    obtain ⟨row, hrow, rfl⟩ := List.mem_map.mp hr
    simp [List.length_zipWith, hrect _ hrow, hth]
  refine ⟨⟨hstrainlen, hstrainrows, ?_⟩, ⟨by simp [hT], ?_, ?_⟩, rfl⟩
  · intro u i hu hi
    have hrowmem : sticks.getD u [] ∈ sticks := by
      rw [List.getD_eq_getElem _ _ (by omega)]
      exact List.getElem_mem _
    rw [getD_map_in _ _ ([] : List ℚ) _ u (by omega),
      getD_zipWith _ _ _ _ (by rw [hrect _ hrowmem]; omega) (by rw [hth]; omega)]
  · intro r hr
    obtain ⟨row, hrow, rfl⟩ := List.mem_map.mp hr
    rw [List.length_map]
    exact hstrainrows _ hrow
  · intro u i
    by_cases hu : u < T
    · rw [getD_map_in _ _ ([] : List ℚ) _ u (by rw [hstrainlen]; omega),
        getD_map_const_zero]
    · have hvel : ((sticks.map fun row =>
          List.zipWith (fun a b => a / b) row thicknesses).map
          (fun row => row.map fun _ => (0 : ℚ))).getD u [] = ([] : List ℚ) :=
        List.getD_eq_default _ _ (by rw [List.length_map, hstrainlen]; omega)
      rw [hvel]
      rfl

/-- C5, witness at `thicknesses = [2]`, `sticks = [[4], [6]]` (`T = 2`,
`L = 1`) and two different trajectory inputs. -/
theorem C5_only_heat_witness :
    ((calc_strain_map true [2] [[4], [6]] [] 1).1.length = 2
      ∧ (∀ r ∈ (calc_strain_map true [2] [[4], [6]] [] 1).1, r.length = 1)
      ∧ ∀ u i, u < 2 → i < 1 →
          ((calc_strain_map true [2] [[4], [6]] [] 1).1.getD u []).getD i 0
            = (([[(4:ℚ)], [6]]).getD u []).getD i 0 / ([(2:ℚ)]).getD i 0)
    ∧ ((calc_strain_map true [2] [[4], [6]] [] 1).2.length = 2
      ∧ (∀ r ∈ (calc_strain_map true [2] [[4], [6]] [] 1).2, r.length = 1)
      ∧ ∀ u i,
          ((calc_strain_map true [2] [[4], [6]] [] 1).2.getD u []).getD i 0
            = 0)
    ∧ calc_strain_map true [2] [[4], [6]] [] 1
        = calc_strain_map true [2] [[4], [6]] [[9]] 1 :=
  C5_only_heat [2] [[4], [6]] [] [[9]] 1 2 rfl (by decide) rfl

/-! ## Claim C6 — dynamic mode post-processing -/

/-- C6: in dynamic (non-heat-only) mode the integration starts from the
all-zero initial state vector of length `2L`; given the `[2L, T]` trajectory
`soly` returned by the integrator, the strain map has shape `[T, L-1]` with
entry `(u, i)` equal to the difference of adjacent layer displacements
`soly[i+1][u] - soly[i][u]` divided by the layer thickness `thicknesses[i]`,
and the velocity map, taken from the trailing half (rows `L..2L-1`) of the
trajectory, has shape `[T, L]`. -/
theorem C6_dynamic (thicknesses : List ℚ) (sticks soly : List (List ℚ))
    (L T : ℕ) (hL : 1 ≤ L) (hy : soly.length = 2 * L)
    (hrect : ∀ r ∈ soly, r.length = T) (hth : thicknesses.length = L) :
    ((x0 L).length = 2 * L ∧ ∀ i, (x0 L).getD i 0 = 0)
    ∧ ((calc_strain_map false thicknesses sticks soly L).1.length = T
      ∧ (∀ r ∈ (calc_strain_map false thicknesses sticks soly L).1,
          r.length = L - 1)
      ∧ ∀ u i, u < T → i + 1 < L →
          ((calc_strain_map false thicknesses sticks soly L).1.getD u []).getD i 0
            = ((soly.getD (i + 1) []).getD u 0 - (soly.getD i []).getD u 0)
              / thicknesses.getD i 0)
    ∧ ((calc_strain_map false thicknesses sticks soly L).2.length = T
      ∧ (∀ r ∈ (calc_strain_map false thicknesses sticks soly L).2, r.length = L)
      ∧ ∀ u i, u < T → i < L →
          ((calc_strain_map false thicknesses sticks soly L).2.getD u []).getD i 0
            = (soly.getD (L + i) []).getD u 0) := by
  have hunfold : calc_strain_map false thicknesses sticks soly L
      = (((matTranspose (soly.take L)).map npdiff).map fun row =>
          List.zipWith (fun a b => a / b) row thicknesses.dropLast,
        matTranspose (soly.drop L)) := rfl
  have htakelen : (soly.take L).length = L := by simp; omega
  have hdroplen : (soly.drop L).length = L := by simp; omega
  have hheadtake : ((soly.take L).headD []).length = T := by
    rw [headD_eq_getD_zero, getD_take_any _ _ _ _ (by omega)]
    refine hrect _ ?_
    rw [List.getD_eq_getElem _ _ (by omega)]
    exact List.getElem_mem _
  have hheaddrop : ((soly.drop L).headD []).length = T := by
    rw [headD_eq_getD_zero, getD_drop_any]
    refine hrect _ ?_
    rw [List.getD_eq_getElem _ _ (by omega)]
    exact List.getElem_mem _
  have htlen : (matTranspose (soly.take L)).length = T := by
    rw [matTranspose, List.length_map, List.length_range]
    exact hheadtake
  have htrow : ∀ u, u < T → (matTranspose (soly.take L)).getD u []
      = (soly.take L).map fun row => row.getD u 0 := by
    intro u hu
    rw [matTranspose, getD_map_range_any _ _ _ _ (by rw [hheadtake]; omega)]
  rw [hunfold]
  refine ⟨⟨by simp [x0], ?_⟩, ⟨?_, ?_, ?_⟩, ⟨?_, ?_, ?_⟩⟩
  · intro i
    by_cases h : i < 2 * L
    · rw [x0, List.getD_eq_getElem _ _ (by simpa using h),
        List.getElem_replicate]
    · rw [x0, List.getD_eq_default _ _ (by simpa using h)]
  · simp [htlen]
  · intro r hr
    obtain ⟨row, hrow, rfl⟩ := List.mem_map.mp hr
    obtain ⟨xrow, hxrow, rfl⟩ := List.mem_map.mp hrow
    obtain ⟨j, hj, rfl⟩ := List.mem_map.mp hxrow
    rw [List.length_zipWith, length_npdiff, List.length_map, htakelen,
      List.length_dropLast, hth]
    omega
  · intro u i hu hi
    rw [getD_map_in _ _ ([] : List ℚ) _ u (by simp [htlen]; omega),
      getD_map_in _ _ ([] : List ℚ) _ u (by rw [htlen]; omega),
      htrow u hu,
      getD_zipWith _ _ _ _
        (by rw [length_npdiff, List.length_map, htakelen]; omega)
        (by rw [List.length_dropLast, hth]; omega),
      getD_npdiff _ _ (by rw [List.length_map, htakelen]; omega),
      getD_map_in _ _ ([] : List ℚ) _ (i + 1) (by rw [htakelen]; omega),
      getD_map_in _ _ ([] : List ℚ) _ i (by rw [htakelen]; omega),
      getD_take_any _ _ _ _ (by omega), getD_take_any _ _ _ _ (by omega),
      getD_dropLast_q _ _ (by rw [hth]; omega)]
  · show (matTranspose (soly.drop L)).length = T
    rw [matTranspose, List.length_map, List.length_range]
    exact hheaddrop
  · intro r hr
    have hr2 : r ∈ matTranspose (soly.drop L) := hr
    rw [matTranspose] at hr2
    obtain ⟨j, hj, rfl⟩ := List.mem_map.mp hr2
    rw [List.length_map]
    exact hdroplen
  · intro u i hu hi
    show ((matTranspose (soly.drop L)).getD u []).getD i 0
      = (soly.getD (L + i) []).getD u 0
    rw [matTranspose, getD_map_range_any _ _ _ _ (by rw [hheaddrop]; omega),
      getD_map_in _ _ ([] : List ℚ) _ i (by rw [hdroplen]; omega),
      getD_drop_any]

/-- C6, witness at `thicknesses = [1, 1]`, `soly = [[1],[2],[3],[4]]`
(`L = 2`, `T = 1`). -/
theorem C6_dynamic_witness :
    ((x0 2).length = 2 * 2 ∧ ∀ i, (x0 2).getD i 0 = 0)
    ∧ ((calc_strain_map false [1, 1] [] [[1], [2], [3], [4]] 2).1.length = 1
      ∧ (∀ r ∈ (calc_strain_map false [1, 1] [] [[1], [2], [3], [4]] 2).1,
          r.length = 2 - 1)
      ∧ ∀ u i, u < 1 → i + 1 < 2 →
          ((calc_strain_map false [1, 1] [] [[1], [2], [3], [4]]
            2).1.getD u []).getD i 0
            = ((([[(1:ℚ)], [2], [3], [4]]).getD (i + 1) []).getD u 0
                - (([[(1:ℚ)], [2], [3], [4]]).getD i []).getD u 0)
              / ([(1:ℚ), 1]).getD i 0)
    ∧ ((calc_strain_map false [1, 1] [] [[1], [2], [3], [4]] 2).2.length = 1
      ∧ (∀ r ∈ (calc_strain_map false [1, 1] [] [[1], [2], [3], [4]] 2).2,
          r.length = 2)
      ∧ ∀ u i, u < 1 → i < 2 →
          ((calc_strain_map false [1, 1] [] [[1], [2], [3], [4]]
            2).2.getD u []).getD i 0
            = (([[(1:ℚ)], [2], [3], [4]]).getD (2 + i) []).getD u 0) :=
  C6_dynamic [1, 1] [] [[1], [2], [3], [4]] 2 1 (by norm_num) rfl (by decide)
    rfl

/-! ## Claim C7 — caching idempotence -/

/-- C7: with `force_recalc = false`, if a call to `get_strain_map` succeeds
(returning strain map `sm` and leaving the cache in state `c1`), then a
second call with the identical inputs returns exactly the same strain map,
leaves the cache unchanged, and takes the load branch — it does not invoke
`calc_strain_map` (and hence not the ODE integrator), as recorded by the
`false` invocation flag. -/
theorem C7_get_strain_map_cached
    (hash : List ℚ → List (List ℚ) → List (List ℚ) → String)
    (cache : CacheStore) (delays : List ℚ)
    (temp_map delta_temp_map : List (List ℚ))
    (calcFn : List ℚ → List (List ℚ) → List (List ℚ) → StrainMap)
    (sm : StrainMap) (c1 : CacheStore) (b : Bool)
    (h : get_strain_map hash false cache delays temp_map delta_temp_map calcFn
        = .ok (sm, c1, b)) :
    get_strain_map hash false c1 delays temp_map delta_temp_map calcFn
      = .ok (sm, c1, false) := by
  simp only [get_strain_map, Bool.not_false, Bool.and_true] at h ⊢
  set fn := "strain_map_num_" ++ hash delays temp_map delta_temp_map ++ ".npy"
    with hfn
  by_cases hex : pathExists cache fn
  · rw [if_pos hex] at h
    cases hload : npLoad cache fn with
    | some v =>
      rw [hload] at h
      simp only [Except.ok.injEq, Prod.mk.injEq] at h
      obtain ⟨h1, h2, h3⟩ := h
      subst h1
      subst h2
      rw [if_pos hex, hload]
    | none =>
      rw [hload] at h
      exact absurd h (by simp)
  · rw [if_neg hex] at h
    simp only [Except.ok.injEq, Prod.mk.injEq] at h
    obtain ⟨h1, h2, h3⟩ := h
    subst h1
    subst h2
    have hex2 : pathExists
        (saveStrainMap cache fn (calcFn delays temp_map delta_temp_map)) fn
        = true := by
      simp [pathExists, saveStrainMap, List.lookup]
    rw [if_pos hex2]
    have hload2 : npLoad
        (saveStrainMap cache fn (calcFn delays temp_map delta_temp_map)) fn
        = some (calcFn delays temp_map delta_temp_map) := by
      simp [npLoad, saveStrainMap, List.lookup]
    rw [hload2]

/-- C7, witness: a first call on an empty cache computes and saves; the
second call returns the identical array from the cache without invoking the
computation. -/
theorem C7_get_strain_map_cached_witness :
    get_strain_map (fun _ _ _ => "h") false
        [("strain_map_num_h.npy", some [[2]])] [0] [[1]] [[0]]
        (fun _ _ _ => [[2]])
      = .ok ([[2]], [("strain_map_num_h.npy", some [[2]])], false) :=
  C7_get_strain_map_cached (fun _ _ _ => "h") [] [0] [[1]] [[0]]
    (fun _ _ _ => [[2]]) [[2]] [("strain_map_num_h.npy", some [[2]])] true rfl

/-! ## Claim C8 — corrupt cache artifact -/

/-- C8, counterexample: the claim states that an existing but
unreadable/corrupt cache artifact is treated as a cache miss with fallback to
recomputation.  The source has no `try/except` around `np.load`
(phononNum.py lines 96-99), so on the concrete store holding a corrupt
artifact under the computed file name the call returns the propagated I/O
error instead of the recomputed strain map `[[2]]`. -/
theorem C8_counterexample :
    get_strain_map (fun _ _ _ => "h") false
        [("strain_map_num_h.npy", (none : Option StrainMap))] [0] [[1]] [[0]]
        (fun _ _ _ => [[2]])
      = .error .ioError := rfl

/-- C8, amended: whenever the cache artifact for the computed file name
exists but is unreadable/corrupt and recomputation is not forced,
`get_strain_map` propagates the I/O error to the caller (it does not fall
back to recomputation). -/
theorem C8_corrupt_propagates
    (hash : List ℚ → List (List ℚ) → List (List ℚ) → String)
    (cache : CacheStore) (delays : List ℚ)
    (temp_map delta_temp_map : List (List ℚ))
    (calcFn : List ℚ → List (List ℚ) → List (List ℚ) → StrainMap)
    (h : cache.lookup
        ("strain_map_num_" ++ hash delays temp_map delta_temp_map ++ ".npy")
        = some none) :
    get_strain_map hash false cache delays temp_map delta_temp_map calcFn
      = .error .ioError := by
  simp only [get_strain_map, Bool.not_false, Bool.and_true]
  set fn := "strain_map_num_" ++ hash delays temp_map delta_temp_map ++ ".npy"
    with hfn
  have hex : pathExists cache fn = true := by simp [pathExists, h]
  rw [if_pos hex]
  have hload : npLoad cache fn = none := by simp [npLoad, h]
  rw [hload]

/-- C8, witness for the amended theorem on a concrete corrupt store. -/
theorem C8_corrupt_propagates_witness :
    get_strain_map (fun _ _ _ => "g") false
        [("strain_map_num_g.npy", (none : Option StrainMap))] [1] [[2]] [[3]]
        (fun _ _ _ => [[4]])
      = .error .ioError :=
  C8_corrupt_propagates (fun _ _ _ => "g")
    [("strain_map_num_g.npy", (none : Option StrainMap))] [1] [[2]] [[3]]
    (fun _ _ _ => [[4]]) rfl

end PhononNum
